import Mathlib

/-!
# Delayed command execution server (`main.go`)

A shallow embedding of the Go program: the task records, the validators, the
identifier generator, the registry / history bookkeeping and the HTTP handlers
and executor arms that mutate them.

Conventions of the embedding

* Go `string` is `String`, Go `int` is `Int`, a Go `error` value is
  `Option String` (`none` is `nil`, `some msg` an error with that message),
  `time.Time` is an `Int` (nanoseconds).
* The package-level variables `activeTasks`, `tasks`, `history` and the two
  files `tasks.json`, `history.json` form the `State`.  A file is `none` when
  it cannot be read and `some l` when it holds the JSON array `l`; encoding
  and decoding are taken to be lossless and writes to succeed.
* A run-time panic (index out of range) is `Except.error`.
* A function is described as a call that runs alone, from the state it finds to the
  state it leaves; `tasksMu` and `historyMu` are free when it starts.
* The command runner and the random source are oracles: the runner result and
  the stream of values returned by `rand.Intn` are inputs.
* `State.runs` is a ghost log of the command lines handed to the runner.
-/

namespace TaskServer

/-! ## Data model -/

/-- Go `type Task struct`. -/
structure Task where
  RunAfterSeconds : Int
  Command : String
  deriving DecidableEq, Repr

/-- Go `type Report struct`. -/
structure Report where
  ID : String
  Task : Task
  Status : String
  deriving DecidableEq, Repr

/-- Go `type FullReport struct`. -/
structure FullReport where
  BaseReport : Report
  ExitCode : Int
  StdOut : String
  StdErr : Option String
  RunAt : Int
  deriving DecidableEq, Repr

/-- Go `const limitingTasks int = 5`. -/
def limitingTasks : Int := 5

/-- Go `const timeOutTimer = 30 * time.Second`, in nanoseconds. -/
def timeOutTimer : Int := 30 * 1000000000

/-- Go `var allowedCommands = map[string]bool`: the keys mapped to `true`. -/
def allowedCommands : List String :=
  ["echo", "date", "ls", "uptime", "whoami", "pwd", "ping"]

/-! ## Validators -/

/-- Go `unicode.IsSpace`: the Latin-1 cases and the `White_Space` table above it. -/
def isSpace (c : Char) : Bool :=
  let n := c.toNat
  if n ≤ 0xFF then
    n = 0x09 || n = 0x0A || n = 0x0B || n = 0x0C || n = 0x0D || n = 0x20 || n = 0x85 || n = 0xA0
  else
    n = 0x1680 || (0x2000 ≤ n && n ≤ 0x200A) || n = 0x2028 || n = 0x2029 || n = 0x202F
      || n = 0x205F || n = 0x3000

/-- Scanning loop of Go `strings.Fields`: `cur` is the field being read, reversed. -/
def fieldsAux : List Char → List Char → List (List Char)
  | [], cur => if cur.isEmpty then [] else [cur.reverse]
  | c :: cs, cur =>
    if isSpace c then
      if cur.isEmpty then fieldsAux cs [] else cur.reverse :: fieldsAux cs []
    else fieldsAux cs (c :: cur)

/-- Go `strings.Fields`: the maximal runs of non-space characters, in order. -/
def Fields (s : String) : List String :=
  (fieldsAux s.toList []).map String.mk

/-- Go `isWhitelisted`: lookup in the `allowedCommands` map. -/
def isWhitelisted (cmd : String) : Bool :=
  allowedCommands.contains cmd

/-- Go `isCommandValid`. -/
def isCommandValid (command : String) : Bool :=
  match Fields command with
  | [] => false
  | cmdName :: _ => if !isWhitelisted cmdName then false else true

/-- Go `isTimeValid`. -/
def isTimeValid (timeDelay : Int) : Bool :=
  decide (timeDelay ≥ 1)

/-- Go `isReportValid`: the verdict and the error it returns. -/
def isReportValid (report : FullReport) : Bool × Option String :=
  if !isCommandValid report.BaseReport.Task.Command then
    (false, some "Command is not valid")
  else if !isTimeValid report.BaseReport.Task.RunAfterSeconds then
    (false, some "Time is not valid")
  else (true, none)

/-! ## Status changers and constructor -/

/-- Go `(*FullReport).changeStatuses`. -/
def changeStatuses (this : FullReport) (stdout : String) (stderr : Option String) : FullReport :=
  let r1 : FullReport := { this with StdOut := stdout, StdErr := stderr }
  let r2 : FullReport :=
    if stdout = "" then { r1 with BaseReport := { r1.BaseReport with Status := "scheduled" } }
    else { r1 with BaseReport := { r1.BaseReport with Status := "executed" } }
  match stderr with
  | none => { r2 with ExitCode := 0 }
  | some _ => { r2 with ExitCode := 1, BaseReport := { r2.BaseReport with Status := "failed" } }

/-- Go `(*FullReport).statusDeleted`. -/
def statusDeleted (this : FullReport) : FullReport :=
  { this with
    StdOut := "", StdErr := none, ExitCode := 0,
    BaseReport := { this.BaseReport with Status := "canceled" } }

/-- Go `makeFullReport`; `now` is the value of `time.Now()`. -/
def makeFullReport (now : Int) (ID : String) (task : Task) (stdout : String)
    (stderr : Option String) : FullReport :=
  let fullReport : FullReport :=
    { BaseReport := { ID := ID, Task := task, Status := "" }, ExitCode := 0,
      StdOut := stdout, StdErr := stderr, RunAt := now + task.RunAfterSeconds }
  changeStatuses fullReport stdout stderr

/-! ## Registry, history and persistence -/

deriving instance DecidableEq for Except

/-- The package-level variables, the two JSON files and the ghost runner log. -/
structure State where
  activeTasks : Int
  tasks : List FullReport
  history : List FullReport
  tasksFile : Option (List FullReport)
  historyFile : Option (List FullReport)
  runs : List String
  deriving DecidableEq, Repr

/-- What a handler writes to its `http.ResponseWriter`. -/
inductive Reply where
  | text (code : Nat) (msg : String)
  | json (report : FullReport)
  deriving DecidableEq, Repr

/-- Go `http.Error(w, msg, code)`. -/
def httpError (msg : String) (code : Nat) : Reply := Reply.text code (msg ++ "\n")

/-- Go `fmt.Fprintf(w, ...)` on a fresh response: status 200 with the text. -/
def fprintf (msg : String) : Reply := Reply.text 200 msg

/-- The loop of Go `findByID`, `i` being the index of the head of `tasks`. -/
def findByIDFrom (ID : String) : List FullReport → Int → Int
  | [], _ => -1
  | t :: ts, i => if t.BaseReport.ID = ID then i else findByIDFrom ID ts (i + 1)

/-- Go `findByID`: index of the first record carrying `ID`, or `-1`. -/
def findByID (tasks : List FullReport) (ID : String) : Int :=
  findByIDFrom ID tasks 0

/-- Go slice indexing `tasks[i]`, which panics outside `0 ≤ i < len(tasks)`. -/
def index (tasks : List FullReport) (i : Int) : Except String FullReport :=
  if i < 0 then Except.error "index out of range"
  else
    match tasks.get? i.toNat with
    | some r => Except.ok r
    | none => Except.error "index out of range"

/-- Go `slices.Delete(tasks, i, i+1)`, which panics outside `0 ≤ i < len(tasks)`. -/
def slicesDelete (tasks : List FullReport) (i : Int) : Except String (List FullReport) :=
  if i < 0 then Except.error "slice bounds out of range"
  else if i.toNat < tasks.length then Except.ok (tasks.eraseIdx i.toNat)
  else Except.error "slice bounds out of range"

/-- Go `saveTasks`: rewrite `tasks.json` with the registry. -/
def saveTasks (s : State) : State :=
  { s with tasksFile := some s.tasks }

/-- Go `saveReportToHistory`: reload `history.json` if readable, append, rewrite. -/
def saveReportToHistory (s : State) (report : FullReport) : State :=
  let s1 : State :=
    match s.historyFile with
    | some data => { s with history := data }
    | none => s
  let s2 : State := { s1 with history := s1.history ++ [report] }
  { s2 with historyFile := some s2.history }

/-- Go `saveReportToFile`: reload `tasks.json` if readable, append the report to the
registry, append it to the history, rewrite `tasks.json`. -/
def saveReportToFile (s : State) (report : FullReport) : State :=
  let s1 : State :=
    match s.tasksFile with
    | some data => { s with tasks := data }
    | none => s
  let s2 : State := { s1 with tasks := s1.tasks ++ [report] }
  let s3 := saveReportToHistory s2 report
  saveTasks s3

/-- Go `deleteFromTasks`. -/
def deleteFromTasks (s : State) (deletingIndex : Int) : Except String State :=
  match slicesDelete s.tasks deletingIndex with
  | Except.error e => Except.error e
  | Except.ok ts => Except.ok (saveTasks { s with tasks := ts })

/-! ## Identifier generator -/

/-- The alphabet of Go `generateID`. -/
def chars : List Char :=
  ("ABCDEFGHIJKLMNOPQRSTUVWXYZ" ++ "abcdefghijklmnopqrstuvwxyz" ++ "0123456789").toList

/-- Go `rand.Intn(n)` on the raw value `raw` supplied by the random source. -/
def intn (raw n : Nat) : Nat := raw % n

/-- The `for` loop of Go `generateID`: `n` runes, drawn from position `pos` of the
random stream `rnd`. -/
def drawRunes (rnd : Nat → Nat) : Nat → Nat → List Char
  | _, 0 => []
  | pos, n + 1 => chars.getD (intn (rnd pos) chars.length) 'A' :: drawRunes rnd (pos + 1) n

/-- Go `generateID`, reading the random stream `rnd` from position `pos`.  The
recursion on a collision is bounded by `fuel` attempts; `none` means that all of
them collided. The position reached is returned with the identifier. -/
def generateID (tasks : List FullReport) (rnd : Nat → Nat) : Nat → Nat → Option (String × Nat)
  | _, 0 => none
  | pos, fuel + 1 =>
    let length := 8
    let str := String.mk (drawRunes rnd pos length)
    if findByID tasks str = -1 then some (str, pos + length)
    else generateID tasks rnd (pos + length) fuel

/-! ## Executor and handlers -/

/-- Go `executeComand`; `output` and `err` are what `cmd.CombinedOutput()` returns. -/
def executeComand (s : State) (report : FullReport) (output : String) (err : Option String) :
    Except String State :=
  let s0 : State := { s with runs := s.runs ++ [report.BaseReport.Task.Command] }
  let report1 : FullReport :=
    match err with
    | some e => changeStatuses report "" (some e)
    | none => changeStatuses report output none
  let s1 : State := { s0 with activeTasks := s0.activeTasks - 1 }
  match deleteFromTasks s1 (findByID s1.tasks report1.BaseReport.ID) with
  | Except.error e => Except.error e
  | Except.ok s2 => Except.ok (saveReportToFile s2 report1)

/-- Go `delayTask`, first step: `activeTasks++`. -/
def delayTaskStart (s : State) : State :=
  { s with activeTasks := s.activeTasks + 1 }

/-- Go `delayTask`, the `time.After` arm of the `select`. -/
def delayTaskTimer (s : State) (report : FullReport) (output : String) (err : Option String) :
    Except String State :=
  match index s.tasks (findByID s.tasks report.BaseReport.ID) with
  | Except.error e => Except.error e
  | Except.ok cur =>
    if cur.BaseReport.Status = "canceled" then Except.ok s
    else executeComand s report output err

/-- Go `delayTask`, the `ctx.Done()` arm of the `select`. -/
def delayTaskTimeout (s : State) (report : FullReport) : Except String (Reply × State) :=
  let report1 := statusDeleted report
  match deleteFromTasks s (findByID s.tasks report1.BaseReport.ID) with
  | Except.error e => Except.error e
  | Except.ok s1 =>
    Except.ok (fprintf ("Task: '" ++ report1.BaseReport.ID ++ "' canceled due to timeout"),
      saveReportToFile s1 report1)

/-- Go `collectTask`.  `body` is the outcome of decoding the request body, `rnd` and
`fuel` feed `generateID`, `now` is the clock.  The result is the reply, the new state
and the report handed to `go delayTask`, if any; `none` when the call does not return.
That is the case when `generateID` is not done within `fuel` attempts, and on every
undecodable body below the limit: after `http.Error` the handler takes `tasksMu.Lock()`
and, still holding it, evaluates `generateID()`, whose `findByID` asks for
`tasksMu.RLock()`; the call blocks for ever and nothing is appended to the registry. -/
def collectTask (s : State) (body : Except String Task) (rnd : Nat → Nat) (fuel : Nat)
    (now : Int) : Option (Reply × State × Option FullReport) :=
  if s.activeTasks ≥ limitingTasks then
    some (httpError "Tasks overflow" 400, s, none)
  else
    match body with
    | Except.error _ => none
    | Except.ok task =>
      match generateID s.tasks rnd 0 fuel with
      | none => none
      | some (id, _) =>
        let report := makeFullReport now id task "" none
        let verdict := isReportValid report
        if !verdict.1 then
          some (fprintf (verdict.2.getD "<nil>"), s, none)
        else
          some (fprintf ("Задача получена: '" ++ report.BaseReport.Task.Command
              ++ "' \nБудет исполнена через: '" ++ toString report.BaseReport.Task.RunAfterSeconds
              ++ "' секунд \nID задачи: '" ++ report.BaseReport.ID ++ "'"),
            saveReportToFile s report, some report)

/-- Go `collectTask` on an undecodable body below the limit: the call that never returns
keeps `tasksMu` write-locked for ever. -/
def collectTaskDeadlocks (s : State) (body : Except String Task) : Bool :=
  match body with
  | Except.error _ => !decide (s.activeTasks ≥ limitingTasks)
  | Except.ok _ => false

/-- Go `showTaskByID`. -/
def showTaskByID (s : State) (idStr : String) : Except String Reply :=
  let idx := findByID s.tasks idStr
  if idx = -1 then Except.ok (httpError "Task not found" 404)
  else
    match index s.tasks idx with
    | Except.error e => Except.error e
    | Except.ok report => Except.ok (Reply.json report)

/-- Go `deleteTask`. -/
def deleteTask (s : State) (idStr : String) : Except String (Reply × State) :=
  let deletingIndex := findByID s.tasks idStr
  match index s.tasks deletingIndex with
  | Except.error e => Except.error e
  | Except.ok found =>
    let reportStatusDeleted := statusDeleted found
    if found.BaseReport.Status = "executed" then
      Except.ok (fprintf "410", s)
    else
      match deleteFromTasks s deletingIndex with
      | Except.error e => Except.error e
      | Except.ok s1 => Except.ok (fprintf "400", saveReportToFile s1 reportStatusDeleted)

/-! ## The running program

The server is a set of handler invocations and executor goroutines over the shared
`State`.  Here each handler call, each arm of an executor and the `activeTasks++` of an
executor is one step that runs alone.  Every run of this system is an interleaving that
the Go scheduler can produce, so what a concrete run shows is a behaviour of the program.
The converse does not hold: the code releases its locks between statements and updates
`activeTasks` without synchronisation, so the program has further interleavings, and a
property of all runs below is a property of the sequential program only.

Of the two arms of the `select` in `delayTask`, the one whose timer is due first is the
one taken: the delay arm when the delay is at most `timeOutTimer`, the timeout arm when
it is at least that. -/

/-- Where an executor goroutine `delayTask(report, w)` stands. -/
inductive Phase where
  | spawned   -- created by `go delayTask`, `activeTasks++` not yet run
  | waiting   -- blocked in the `select`
  | done      -- returned
  deriving DecidableEq, Repr

/-- An executor goroutine: its private copy of the report and its phase. -/
structure Exec where
  report : FullReport
  phase : Phase
  deriving DecidableEq, Repr

/-- The program: shared state, the executor goroutines in creation order, and whether
`tasksMu` is held by a `collectTask` call that never releases it. -/
structure System where
  st : State
  execs : List Exec
  tasksMuHeld : Bool
  deriving DecidableEq, Repr

/-- The steps of the program. -/
inductive Event where
  /-- Request `POST /tasks` handled by `collectTask`. -/
  | post (body : Except String Task) (rnd : Nat → Nat) (fuel : Nat) (now : Int)
  /-- Executor `i` runs `activeTasks++` and blocks in the `select`. -/
  | start (i : Nat)
  /-- The delay of executor `i` elapses; the runner, if called, returns `output, err`. -/
  | fire (i : Nat) (output : String) (err : Option String)
  /-- The safety timeout of executor `i` elapses. -/
  | timeout (i : Nat)
  /-- Request `DELETE /tasks/{id}` handled by `deleteTask`. -/
  | delete (id : String)

/-- Go `int64` wrap-around of a product computed on `time.Duration`. -/
def wrap64 (x : Int) : Int := (x + 2 ^ 63) % 2 ^ 64 - 2 ^ 63

/-- Go `time.Duration(report.BaseReport.Task.RunAfterSeconds) * time.Second`. -/
def delayOf (report : FullReport) : Int :=
  wrap64 (report.BaseReport.Task.RunAfterSeconds * 1000000000)

/-- The empty initial state: no file on disk, nothing in memory. -/
def State.init : State :=
  { activeTasks := 0, tasks := [], history := [], tasksFile := none, historyFile := none,
    runs := [] }

/-- The program at start-up. -/
def System.init : System := { st := State.init, execs := [], tasksMuHeld := false }

/-- Replace the phase of executor `i`. -/
def setPhase : List Exec → Nat → Phase → List Exec
  | [], _, _ => []
  | e :: es, 0, p => { e with phase := p } :: es
  | e :: es, i + 1, p => e :: setPhase es i p

/-- One step of the program.  `none`: the step cannot be taken here (no such executor,
wrong phase, the other arm of the `select` is the one that becomes ready, `generateID`
out of attempts, the step needs `tasksMu` while it is held for ever) or a goroutine
panic ended the process.  A panic inside a handler is recovered by the HTTP server and
leaves the system as it is.  A `collectTask` call that deadlocks leaves `tasksMu` held;
from then on only the overflow answer of `collectTask` and the `activeTasks++` of an
executor, which do not touch `tasksMu`, can still take place. -/
def step (sys : System) : Event → Option System
  | Event.post body rnd fuel now =>
    if sys.tasksMuHeld ∧ ¬ sys.st.activeTasks ≥ limitingTasks then none
    else if collectTaskDeadlocks sys.st body then some { sys with tasksMuHeld := true }
    else
      match collectTask sys.st body rnd fuel now with
      | none => none
      | some (_, st1, none) => some { sys with st := st1 }
      | some (_, st1, some report) =>
        some { sys with
          st := st1, execs := sys.execs ++ [{ report := report, phase := Phase.spawned }] }
  | Event.start i =>
    match sys.execs.get? i with
    | some e =>
      if e.phase = Phase.spawned then
        some { sys with
          st := delayTaskStart sys.st, execs := setPhase sys.execs i Phase.waiting }
      else none
    | none => none
  | Event.fire i output err =>
    if sys.tasksMuHeld then none
    else
      match sys.execs.get? i with
      | some e =>
        if e.phase = Phase.waiting ∧ delayOf e.report ≤ timeOutTimer then
          match delayTaskTimer sys.st e.report output err with
          | Except.ok st1 =>
            some { sys with st := st1, execs := setPhase sys.execs i Phase.done }
          | Except.error _ => none
        else none
      | none => none
  | Event.timeout i =>
    if sys.tasksMuHeld then none
    else
      match sys.execs.get? i with
      | some e =>
        if e.phase = Phase.waiting ∧ timeOutTimer ≤ delayOf e.report then
          match delayTaskTimeout sys.st e.report with
          | Except.ok (_, st1) =>
            some { sys with st := st1, execs := setPhase sys.execs i Phase.done }
          | Except.error _ => none
        else none
      | none => none
  | Event.delete id =>
    if sys.tasksMuHeld then none
    else
      match deleteTask sys.st id with
      | Except.ok (_, st1) => some { sys with st := st1 }
      | Except.error _ => some sys

/-- Run a sequence of steps. -/
def run (sys : System) : List Event → Option System
  | [] => some sys
  | e :: es =>
    match step sys e with
    | none => none
    | some sys1 => run sys1 es

/-- The states the program reaches from start-up by steps that each run alone. -/
def Reachable (sys : System) : Prop :=
  ∃ evs : List Event, run System.init evs = some sys

/-- Number of registry records whose status is `scheduled`. -/
def scheduledCount (tasks : List FullReport) : Nat :=
  (tasks.filter fun r => r.BaseReport.Status = "scheduled").length

/-- A random stream returning the same raw value at every draw. -/
def constRnd (k : Nat) : Nat → Nat := fun _ => k

/-! ## Specification-side notions -/

/-- The first whitespace-separated token of `s` is `tok`: `s` is some white space, then
`tok`, which is non-empty and holds no white space, then nothing or white space and the
rest. Stated from the wording of the validator's contract, without `Fields`. -/
def FirstToken (s tok : String) : Prop :=
  ∃ pre post : List Char,
    s.toList = pre ++ tok.toList ++ post ∧
    (∀ c ∈ pre, isSpace c = true) ∧
    tok.toList ≠ [] ∧
    (∀ c ∈ tok.toList, isSpace c = false) ∧
    (∀ c ∈ post.head?, isSpace c = true)

/-- The registry holds at most one record per identifier. -/
def UniqueIDs (tasks : List FullReport) : Prop :=
  (tasks.map fun x => x.BaseReport.ID).Nodup

instance (tasks : List FullReport) : Decidable (UniqueIDs tasks) := by
  unfold UniqueIDs
  infer_instance

/-! ## Concrete runs used by the theorems -/

/-- A task that pings without a target, to run after one second. -/
def pingTask : Task := ⟨1, "ping"⟩

/-- The record of `pingTask` after the runner reported `exit status 1`. -/
def pingFailed : FullReport :=
  { BaseReport := { ID := "AAAAAAAA", Task := pingTask, Status := "failed" },
    ExitCode := 1, StdOut := "", StdErr := some "exit status 1", RunAt := 1 }

/-- Submit `pingTask`, start its executor, let the delay elapse with a failing runner. -/
def failedRun : List Event :=
  [Event.post (Except.ok pingTask) (constRnd 0) 1 0, Event.start 0,
   Event.fire 0 "" (some "exit status 1")]

/-- The state `failedRun` ends in. -/
def failedState : State :=
  { activeTasks := 0,
    tasks := [pingFailed],
    history := [makeFullReport 0 "AAAAAAAA" pingTask "" none, pingFailed],
    tasksFile := some [pingFailed],
    historyFile := some [makeFullReport 0 "AAAAAAAA" pingTask "" none, pingFailed],
    runs := ["ping"] }

/-- A task whose command succeeds and prints nothing. -/
def quietTask : Task := ⟨1, "echo $null"⟩

/-- The scheduled record of `quietTask` under identifier `AAAAAAAA`. -/
def quietReport : FullReport := makeFullReport 0 "AAAAAAAA" quietTask "" none

/-- The state after `quietTask` was accepted and its executor started. -/
def quietState : State :=
  { activeTasks := 1, tasks := [quietReport], history := [quietReport],
    tasksFile := some [quietReport], historyFile := some [quietReport], runs := [] }

/-- A task to run after two seconds. -/
def echoTask : Task := ⟨2, "echo hi"⟩

/-- A task whose delay exceeds the safety timeout. -/
def slowTask : Task := ⟨31, "echo hi"⟩

/-- Submit `echoTask`, start its executor, delete the task, let the delay elapse. -/
def deletedRun : List Event :=
  [Event.post (Except.ok echoTask) (constRnd 0) 1 0, Event.start 0,
   Event.delete "AAAAAAAA", Event.fire 0 "hi\n" none]

/-- Submit `slowTask`, start its executor, let the safety timeout elapse. -/
def timedOutRun : List Event :=
  [Event.post (Except.ok slowTask) (constRnd 0) 1 0, Event.start 0, Event.timeout 0]

/-- Submit `echoTask`, start its executor, let the delay elapse with a successful run. -/
def executedRun : List Event :=
  [Event.post (Except.ok echoTask) (constRnd 0) 1 0, Event.start 0, Event.fire 0 "hi\n" none]

/-- Six submissions of `echoTask` accepted before any executor has started. -/
def sixPosts : List Event :=
  (List.range 6).map fun k => Event.post (Except.ok echoTask) (constRnd k) 1 0

/-- Six rounds of: submit `quietTask`, start its executor, let it run with empty output. -/
def sixQuietRounds : List Event :=
  (List.range 6).flatMap fun k =>
    [Event.post (Except.ok quietTask) (constRnd k) 1 0, Event.start k, Event.fire k "" none]

/-- The counter and the registry statuses at the end of a run. -/
def summary (evs : List Event) : Option (Int × List (String × String)) :=
  (run System.init evs).map fun sys =>
    (sys.st.activeTasks, sys.st.tasks.map fun r => (r.BaseReport.ID, r.BaseReport.Status))

/-- The identifiers and statuses of the history at the end of a run. -/
def historySummary (evs : List Event) : Option (List (String × String)) :=
  (run System.init evs).map fun sys =>
    sys.st.history.map fun r => (r.BaseReport.ID, r.BaseReport.Status)

/-- Are all executors of the run finished at its end. -/
def allDone (evs : List Event) : Option Bool :=
  (run System.init evs).map fun sys => sys.execs.all fun e => e.phase = Phase.done

/-- The character is one of `A-Z`, `a-z`, `0-9`. -/
def isAlphaNum (c : Char) : Bool :=
  ('A' ≤ c && c ≤ 'Z') || ('a' ≤ c && c ≤ 'z') || ('0' ≤ c && c ≤ '9')

/-- The string drawn by attempt number `k` of `generateID` started at position `pos`. -/
def attempt (rnd : Nat → Nat) (pos k : Nat) : String :=
  String.mk (drawRunes rnd (pos + 8 * k) 8)

/-- A random stream whose first eight draws are 0 and all later ones 1. -/
def collidingRnd : Nat → Nat := fun i => if i < 8 then 0 else 1

/-- The system at the end of `executedRun`. -/
def executedSys : System := (run System.init executedRun).getD System.init

/-- Submit `echoTask`, start its executor, delete the task twice. -/
def deletedTwiceRun : List Event :=
  [Event.post (Except.ok echoTask) (constRnd 0) 1 0, Event.start 0,
   Event.delete "AAAAAAAA", Event.delete "AAAAAAAA"]

/-- Registry well-formedness kept by the program: one record per identifier, and the
registry file, when written, holds a sublist of the registry. -/
def UInv (s : State) : Prop :=
  UniqueIDs s.tasks ∧ ∀ F, s.tasksFile = some F → F.Sublist s.tasks

/-- Five submissions of `echoTask` accepted, none of their executors started yet. -/
def fiveAccepted : List Event :=
  (List.range 5).map fun k => Event.post (Except.ok echoTask) (constRnd k) 1 0

/-- The system at the end of `fiveAccepted`. -/
def fiveAcceptedSys : System := (run System.init fiveAccepted).getD System.init

/-- The reply to a sixth submission of `echoTask` under identifier `FFFFFFFF`. -/
def sixthReply : Reply :=
  fprintf "Задача получена: 'echo hi' \nБудет исполнена через: '2' секунд \nID задачи: 'FFFFFFFF'"

/-- The call appends `r` to the history: the history, reloaded from `history.json` when
that file is readable, gets `r` as one further last entry, `history.json` is rewritten
with the result, and `r` is the last record of the registry. -/
def Appended (s s1 : State) (r : FullReport) : Prop :=
  s1.history = s.historyFile.getD s.history ++ [r] ∧
  s1.historyFile = some s1.history ∧
  s1.tasks.getLast? = some r

/-- The record `executeComand` stores for `report` when the runner returns `output, err`. -/
def executedRecord (report : FullReport) (output : String) (err : Option String) : FullReport :=
  match err with
  | some e => changeStatuses report "" (some e)
  | none => changeStatuses report output none

/-- The state after the safety timeout of `quietTask` in `quietState`. -/
def quietTimedOut : State :=
  { activeTasks := 1, tasks := [statusDeleted quietReport],
    history := [quietReport, statusDeleted quietReport],
    tasksFile := some [statusDeleted quietReport],
    historyFile := some [quietReport, statusDeleted quietReport], runs := [] }

/-! # Theorems -/

/-! ## Facts about `Fields` -/

theorem fieldsAux_cur (cs cur : List Char) (hcur : cur ≠ []) :
    fieldsAux cs cur =
      (cur.reverse ++ cs.takeWhile (fun c => !isSpace c)) ::
        fieldsAux (cs.dropWhile (fun c => !isSpace c)) [] := by
  induction cs generalizing cur with
  | nil => simp [fieldsAux, hcur]
  | cons c cs ih =>
    by_cases hc : isSpace c = true
    · simp [fieldsAux, hc, hcur]
    · simp only [Bool.not_eq_true] at hc
      simp [fieldsAux, hc, ih (c :: cur) (by simp)]

theorem fieldsAux_nil (cs : List Char) :
    fieldsAux cs [] =
      match cs.dropWhile isSpace with
      | [] => []
      | c :: rest =>
        (c :: rest.takeWhile (fun c => !isSpace c)) ::
          fieldsAux (rest.dropWhile (fun c => !isSpace c)) [] := by
  induction cs with
  | nil => simp [fieldsAux]
  | cons c cs ih =>
    by_cases hc : isSpace c = true
    · simp [fieldsAux, hc, ih]
    · simp only [Bool.not_eq_true] at hc
      simp [fieldsAux, hc, fieldsAux_cur cs [c] (by simp)]

theorem dropWhile_space_append (pre l : List Char) (hpre : ∀ c ∈ pre, isSpace c = true) :
    (pre ++ l).dropWhile isSpace = l.dropWhile isSpace := by
  induction pre with
  | nil => rfl
  | cons c pre ih =>
    have h1 : isSpace c = true := hpre c (by simp)
    simp [List.dropWhile, h1, ih (fun x hx => hpre x (by simp [hx]))]

theorem takeWhile_token (tok post : List Char) (htok : ∀ c ∈ tok, isSpace c = false)
    (hpost : ∀ c ∈ post.head?, isSpace c = true) :
    (tok ++ post).takeWhile (fun c => !isSpace c) = tok ∧
      (tok ++ post).dropWhile (fun c => !isSpace c) = post := by
  induction tok with
  | nil =>
    cases post with
    | nil => simp
    | cons c post =>
      have h1 : isSpace c = true := hpost c (by simp)
      simp [List.takeWhile, List.dropWhile, h1]
  | cons c tok ih =>
    have h1 : isSpace c = false := htok c (by simp)
    have ih1 := ih (fun x hx => htok x (by simp [hx]))
    simp [List.takeWhile, List.dropWhile, h1, ih1.1, ih1.2]

theorem head_dropWhile_nonspace (l : List Char) :
    ∀ c ∈ (l.dropWhile (fun c => !isSpace c)).head?, isSpace c = true := by
  induction l with
  | nil => simp
  | cons a l ih =>
    by_cases ha : isSpace a = true
    · simp [List.dropWhile, ha]
    · simp only [Bool.not_eq_true] at ha
      simpa [List.dropWhile, ha] using ih

/-- The head of `Fields s` is the first token of `s` in the sense of `FirstToken`. -/
theorem Fields_head_iff (s tok : String) :
    (∃ rest, Fields s = tok :: rest) ↔ FirstToken s tok := by
  constructor
  · rintro ⟨rest, h⟩
    unfold Fields at h
    rw [fieldsAux_nil] at h
    have hsplit := List.takeWhile_append_dropWhile isSpace s.toList
    cases hd : s.toList.dropWhile isSpace with
    | nil => rw [hd] at h; simp at h
    | cons c l =>
      rw [hd] at h hsplit
      simp only [List.map_cons, List.cons.injEq] at h
      obtain ⟨h1, -⟩ := h
      have hc : isSpace c = false := by
        have h2 := List.head_dropWhile_not isSpace s.toList (by rw [hd]; simp)
        simp only [hd, List.head_cons] at h2
        exact h2
      have htok : tok.toList = c :: l.takeWhile (fun c => !isSpace c) := by
        rw [← h1]; rfl
      refine ⟨s.toList.takeWhile isSpace, l.dropWhile (fun c => !isSpace c), ?_, ?_, ?_, ?_, ?_⟩
      · rw [htok, List.append_assoc, List.cons_append, List.takeWhile_append_dropWhile]
        exact hsplit.symm
      · intro x hx
        exact (List.mem_takeWhile_imp hx)
      · rw [htok]; simp
      · intro x hx
        rw [htok] at hx
        rcases List.mem_cons.1 hx with rfl | hx
        · exact hc
        · simpa using List.mem_takeWhile_imp hx
      · exact head_dropWhile_nonspace l
  · rintro ⟨pre, post, hs, hpre, hne, htok, hpost⟩
    unfold Fields
    rw [fieldsAux_nil, hs, List.append_assoc, dropWhile_space_append _ _ hpre]
    cases ht : tok.toList with
    | nil => exact absurd ht hne
    | cons c l =>
      rw [ht] at htok
      have hc : isSpace c = false := htok c (by simp)
      have hl := takeWhile_token l post (fun x hx => htok x (by simp [hx])) hpost
      have htk : tok = String.mk (c :: l) := by
        cases tok; simp_all
      simp [List.dropWhile, hc, hl.1, hl.2, htk]

/-! ## C1: the validator -/

/-- C1: `isReportValid` accepts a report exactly when its command has a first
whitespace-separated token, that token is one of echo, date, ls, uptime, whoami, pwd,
ping, and the delay is at least 1. A report with command `rm -rf /` and delay 1 is
rejected with the command error, and a delay of zero or less is rejected. -/
theorem C1_isReportValid_iff (report : FullReport) :
    ((isReportValid report).1 = true ↔
      (∃ tok, FirstToken report.BaseReport.Task.Command tok ∧
        tok ∈ ["echo", "date", "ls", "uptime", "whoami", "pwd", "ping"]) ∧
      1 ≤ report.BaseReport.Task.RunAfterSeconds) ∧
    ((isReportValid report).1 = true → isReportValid report = (true, none)) ∧
    (report.BaseReport.Task.Command = "rm -rf /" → report.BaseReport.Task.RunAfterSeconds = 1 →
      isReportValid report = (false, some "Command is not valid")) ∧
    (report.BaseReport.Task.RunAfterSeconds ≤ 0 → (isReportValid report).1 = false) := by
  have key : (isReportValid report).1 = true ↔
      (∃ tok, FirstToken report.BaseReport.Task.Command tok ∧
        tok ∈ ["echo", "date", "ls", "uptime", "whoami", "pwd", "ping"]) ∧
      1 ≤ report.BaseReport.Task.RunAfterSeconds := by
    have hF : ∀ tok, FirstToken report.BaseReport.Task.Command tok ↔
        ∃ rest, Fields report.BaseReport.Task.Command = tok :: rest :=
      fun tok => (Fields_head_iff _ tok).symm
    simp only [hF]
    unfold isReportValid isCommandValid isTimeValid isWhitelisted allowedCommands
    cases hf : Fields report.BaseReport.Task.Command with
    | nil => simp
    | cons t ts =>
      by_cases hw : t ∈ ["echo", "date", "ls", "uptime", "whoami", "pwd", "ping"]
      · by_cases hd : 1 ≤ report.BaseReport.Task.RunAfterSeconds
        · have hw2 : ["echo", "date", "ls", "uptime", "whoami", "pwd", "ping"].contains t = true :=
            List.elem_iff.2 hw
          simp only [hw2, hd, ge_iff_le, decide_True, Bool.not_true, Bool.false_eq_true,
            if_false, List.cons.injEq, true_iff, and_true]
          exact ⟨t, ⟨ts, rfl, rfl⟩, hw⟩
        · have hw2 : ["echo", "date", "ls", "uptime", "whoami", "pwd", "ping"].contains t = true :=
            List.elem_iff.2 hw
          simp only [hw2, hd, ge_iff_le, decide_False, Bool.not_true, Bool.false_eq_true,
            if_false, Bool.not_false, if_true, and_false]
      · have hw2 : ["echo", "date", "ls", "uptime", "whoami", "pwd", "ping"].contains t = false := by
          rw [Bool.eq_false_iff]
          exact fun h => hw (List.elem_iff.1 h)
        simp only [hw2, Bool.not_false, if_true, Bool.false_eq_true, List.cons.injEq, false_iff,
          not_and, forall_exists_index, and_imp]
        intro tok rest h1 _ h3
        exact absurd (h1 ▸ h3) hw
  refine ⟨key, ?_, ?_, ?_⟩
  · intro h
    unfold isReportValid at h ⊢
    split_ifs at h ⊢
    simp_all
  · intro hc _
    unfold isReportValid isCommandValid
    rw [hc]
    have hf : Fields "rm -rf /" = ["rm", "-rf", "/"] := by decide
    rw [hf]
    have hw : isWhitelisted "rm" = false := by decide
    simp [hw]
  · intro hd
    rw [Bool.eq_false_iff]
    intro h
    have := (key.1 h).2
    omega

/-- C1 at concrete reports: `echo hi` with delay 0 is rejected. -/
theorem C1_isReportValid_iff_witness :
    (isReportValid (makeFullReport 0 "AAAAAAAA" ⟨0, "echo hi"⟩ "" none)).1 = false :=
  (C1_isReportValid_iff (makeFullReport 0 "AAAAAAAA" ⟨0, "echo hi"⟩ "" none)).2.2.2
    (by decide)

/-! ## Facts about `findByID`, indexing and deletion -/

theorem findByIDFrom_eq_neg_one_iff (ID : String) (l : List FullReport) (k : Int) (hk : 0 ≤ k) :
    findByIDFrom ID l k = -1 ↔ ∀ x ∈ l, x.BaseReport.ID ≠ ID := by
  induction l generalizing k with
  | nil => simp [findByIDFrom]
  | cons a l ih =>
    by_cases ha : a.BaseReport.ID = ID
    · simp only [findByIDFrom, ha, if_true, List.mem_cons, forall_eq_or_imp, ne_eq,
        not_true_eq_false, false_and, iff_false]
      omega
    · simp only [findByIDFrom, ha, if_false, List.mem_cons, forall_eq_or_imp, ne_eq,
        not_false_eq_true, true_and]
      exact ih (k + 1) (by omega)

/-- The answer of `findByID` is `-1` exactly when no record carries the identifier. -/
theorem findByID_eq_neg_one_iff (tasks : List FullReport) (ID : String) :
    findByID tasks ID = -1 ↔ ∀ x ∈ tasks, x.BaseReport.ID ≠ ID :=
  findByIDFrom_eq_neg_one_iff ID tasks 0 (le_refl 0)

theorem findByIDFrom_append (ID : String) (pre l : List FullReport) (k : Int)
    (h : ∀ x ∈ pre, x.BaseReport.ID ≠ ID) :
    findByIDFrom ID (pre ++ l) k = findByIDFrom ID l (k + pre.length) := by
  induction pre generalizing k with
  | nil => simp
  | cons a pre ih =>
    have ha : a.BaseReport.ID ≠ ID := h a (by simp)
    show findByIDFrom ID (a :: (pre ++ l)) k = _
    simp only [findByIDFrom, ha, if_false, List.length_cons]
    rw [ih (k + 1) (fun x hx => h x (by simp [hx]))]
    congr 1
    push_cast
    ring

/-- The index `findByID` returns is that of the first record carrying the identifier. -/
theorem findByID_first (pre post : List FullReport) (r : FullReport)
    (h : ∀ x ∈ pre, x.BaseReport.ID ≠ r.BaseReport.ID) :
    findByID (pre ++ r :: post) r.BaseReport.ID = pre.length := by
  unfold findByID
  rw [findByIDFrom_append _ _ _ _ h]
  simp [findByIDFrom]

theorem index_first (pre post : List FullReport) (r : FullReport) :
    index (pre ++ r :: post) pre.length = Except.ok r := by
  unfold index
  have h0 : ¬ ((pre.length : Int) < 0) := by omega
  have h1 : (pre ++ r :: post).get? pre.length = some r := by
    induction pre with
    | nil => rfl
    | cons a pre ih => simpa using ih (by omega)
  rw [if_neg h0, Int.toNat_ofNat, h1]

theorem slicesDelete_first (pre post : List FullReport) (r : FullReport) :
    slicesDelete (pre ++ r :: post) pre.length = Except.ok (pre ++ post) := by
  unfold slicesDelete
  simp [List.eraseIdx_append_of_length_le]

/-- In a registry with pairwise distinct identifiers a member record splits the registry
into records before and after it that carry other identifiers. -/
theorem split_of_nodup (tasks : List FullReport) (r : FullReport) (hr : r ∈ tasks)
    (hnd : (tasks.map fun x => x.BaseReport.ID).Nodup) :
    ∃ pre post, tasks = pre ++ r :: post ∧
      (∀ x ∈ pre, x.BaseReport.ID ≠ r.BaseReport.ID) ∧
      (∀ x ∈ post, x.BaseReport.ID ≠ r.BaseReport.ID) := by
  obtain ⟨pre, post, rfl⟩ := List.append_of_mem hr
  refine ⟨pre, post, rfl, ?_, ?_⟩
  · intro x hx hxe
    rw [List.map_append, List.nodup_append] at hnd
    exact hnd.2.2 (List.mem_map_of_mem _ hx) (by simp [hxe])
  · intro x hx hxe
    rw [List.map_append, List.nodup_append] at hnd
    have h2 := hnd.2.1
    simp only [List.map_cons, List.nodup_cons, List.mem_map, not_exists, not_and] at h2
    exact h2.1 x hx hxe

/-- The whole effect of `saveReportToFile`: registry and history are reloaded from their
files when these are readable, the report is appended to both, both files are rewritten. -/
theorem saveReportToFile_eq (s : State) (report : FullReport) :
    saveReportToFile s report =
      { activeTasks := s.activeTasks,
        tasks := s.tasksFile.getD s.tasks ++ [report],
        history := s.historyFile.getD s.history ++ [report],
        tasksFile := some (s.tasksFile.getD s.tasks ++ [report]),
        historyFile := some (s.historyFile.getD s.history ++ [report]),
        runs := s.runs } := by
  cases ht : s.tasksFile <;> cases hh : s.historyFile <;>
    simp [saveReportToFile, saveReportToHistory, saveTasks, ht, hh]

/-! ## C2, C4, C5: `deleteTask` -/

/-- C2, as the code has it: in a registry with one record per identifier, `deleteTask`
on the identifier of a record whose status is `executed` answers `410` and returns the
state as it was: registry, history, files, counter and the record are untouched. -/
theorem C2_deleteTask_executed (s : State) (r : FullReport) (hr : r ∈ s.tasks)
    (hu : UniqueIDs s.tasks) (hst : r.BaseReport.Status = "executed") :
    deleteTask s r.BaseReport.ID = Except.ok (fprintf "410", s) := by
  obtain ⟨pre, post, hsplit, hpre, -⟩ := split_of_nodup s.tasks r hr hu
  unfold deleteTask
  simp only [hsplit, findByID_first pre post r hpre, index_first, hst, if_true]

/-- C2 amended, at a concrete registry holding one executed record. -/
theorem C2_deleteTask_executed_witness :
    deleteTask { State.init with tasks := [changeStatuses pingFailed "pong" none] } "AAAAAAAA"
      = Except.ok (fprintf "410",
          { State.init with tasks := [changeStatuses pingFailed "pong" none] }) :=
  C2_deleteTask_executed { State.init with tasks := [changeStatuses pingFailed "pong" none] }
    (changeStatuses pingFailed "pong" none) (by decide) (by decide) (by decide)

/-- C2 fails for a failed record: after `ping` ran and failed, the registry holds its
record with status `failed`; `deleteTask` on its identifier answers `400`, replaces the
record by a canceled one (exit code 0, no error) and appends that to the history. -/
theorem C2_counterexample_failed :
    run System.init failedRun = some ⟨failedState, [⟨makeFullReport 0 "AAAAAAAA" pingTask "" none,
      Phase.done⟩], false⟩ ∧
    pingFailed ∈ failedState.tasks ∧ pingFailed.BaseReport.Status = "failed" ∧
    UniqueIDs failedState.tasks ∧
    deleteTask failedState "AAAAAAAA" = Except.ok (fprintf "400",
      { failedState with
        tasks := [statusDeleted pingFailed],
        history := failedState.history ++ [statusDeleted pingFailed],
        tasksFile := some [statusDeleted pingFailed],
        historyFile := some (failedState.history ++ [statusDeleted pingFailed]) }) ∧
    deleteTask failedState "AAAAAAAA" ≠ Except.ok (fprintf "410", failedState) := by
  refine ⟨by decide, by decide, by decide, by decide, by decide, by decide⟩

/-- C4: in a registry with one record per identifier, `deleteTask` on the identifier of a
scheduled record answers `400`; the record is replaced by its canceled copy (status
`canceled`, empty stdout, no error, same identifier and task), which is also the entry
appended to the history; no record with that identifier is left scheduled; the runner
log and the counter are unchanged, and the timer arm of that task's executor then
returns without calling the runner. -/
theorem C4_deleteTask_scheduled (s : State) (r : FullReport) (hr : r ∈ s.tasks)
    (hu : UniqueIDs s.tasks) (hst : r.BaseReport.Status = "scheduled") :
    ∃ s1 : State, deleteTask s r.BaseReport.ID = Except.ok (fprintf "400", s1) ∧
      (∃ pre post, s.tasks = pre ++ r :: post ∧ s1.tasks = pre ++ post ++ [statusDeleted r]) ∧
      s1.history = s.historyFile.getD s.history ++ [statusDeleted r] ∧
      (statusDeleted r).BaseReport.Status = "canceled" ∧
      (statusDeleted r).StdOut = "" ∧ (statusDeleted r).StdErr = none ∧
      (statusDeleted r).BaseReport.ID = r.BaseReport.ID ∧
      (statusDeleted r).BaseReport.Task = r.BaseReport.Task ∧
      (∀ x ∈ s1.tasks, x.BaseReport.ID = r.BaseReport.ID → x = statusDeleted r) ∧
      (∀ x ∈ s1.tasks, x.BaseReport.ID = r.BaseReport.ID → x.BaseReport.Status ≠ "scheduled") ∧
      s1.runs = s.runs ∧ s1.activeTasks = s.activeTasks ∧
      (∀ (rep : FullReport) (output : String) (err : Option String),
        rep.BaseReport.ID = r.BaseReport.ID → delayTaskTimer s1 rep output err = Except.ok s1) := by
  obtain ⟨pre, post, hsplit, hpre, hpost⟩ := split_of_nodup s.tasks r hr hu
  have hne : ¬ r.BaseReport.Status = "executed" := by rw [hst]; decide
  have hmem : ∀ x ∈ pre ++ post ++ [statusDeleted r],
      x.BaseReport.ID = r.BaseReport.ID → x = statusDeleted r := by
    intro x hx hid
    simp only [List.mem_append, List.mem_singleton] at hx
    rcases hx with (hx | hx) | hx
    · exact absurd hid (hpre x hx)
    · exact absurd hid (hpost x hx)
    · exact hx
  have hfind : findByID (pre ++ post ++ [statusDeleted r]) r.BaseReport.ID
      = (pre ++ post).length := by
    have := findByID_first (pre ++ post) [] (statusDeleted r) (by
      intro x hx
      simp only [List.mem_append] at hx
      rcases hx with hx | hx
      · exact hpre x hx
      · exact hpost x hx)
    simpa [statusDeleted] using this
  have hs1 : saveReportToFile (saveTasks { s with tasks := pre ++ post }) (statusDeleted r) =
      { activeTasks := s.activeTasks,
        tasks := pre ++ post ++ [statusDeleted r],
        history := s.historyFile.getD s.history ++ [statusDeleted r],
        tasksFile := some (pre ++ post ++ [statusDeleted r]),
        historyFile := some (s.historyFile.getD s.history ++ [statusDeleted r]),
        runs := s.runs } := by
    rw [saveReportToFile_eq]
    simp [saveTasks]
  refine ⟨saveReportToFile (saveTasks { s with tasks := pre ++ post }) (statusDeleted r),
    ?_, ⟨pre, post, hsplit, ?_⟩, ?_, rfl, rfl, rfl, rfl, rfl, ?_, ?_, ?_, ?_, ?_⟩
  · unfold deleteTask
    simp only [hsplit, findByID_first pre post r hpre, index_first, hne, if_false,
      deleteFromTasks, slicesDelete_first]
  · rw [hs1]
  · rw [hs1]
  · rw [hs1]; exact hmem
  · rw [hs1]
    intro x hx hid
    rw [hmem x hx hid]
    show "canceled" ≠ "scheduled"
    decide
  · rw [hs1]
  · rw [hs1]
  · intro rep output err hid
    rw [hs1]
    unfold delayTaskTimer
    simp only [hid, hfind]
    rw [index_first (pre ++ post) [] (statusDeleted r)]
    simp [statusDeleted]

/-- C4 at a concrete registry: `deleteTask` on the scheduled record of `pingTask`
answers `400`. -/
theorem C4_deleteTask_scheduled_witness :
    (deleteTask { State.init with tasks := [makeFullReport 0 "AAAAAAAA" pingTask "" none] }
      "AAAAAAAA").toOption.map (fun out => out.1) = some (fprintf "400") := by
  obtain ⟨s1, h1, -⟩ :=
    C4_deleteTask_scheduled { State.init with tasks := [makeFullReport 0 "AAAAAAAA" pingTask "" none] }
      (makeFullReport 0 "AAAAAAAA" pingTask "" none) (by decide) (by decide) (by decide)
  have h2 : (makeFullReport 0 "AAAAAAAA" pingTask "" none).BaseReport.ID = "AAAAAAAA" := by decide
  rw [h2] at h1
  rw [h1]
  rfl

/-- C5, what the code does: `deleteTask` on an identifier that no record carries panics
on `tasks[-1]`; it neither answers NotFound nor returns a state.  `showTaskByID`, the
sibling handler, answers 404 on the same input. -/
theorem C5_deleteTask_unknown_panics (s : State) (id : String)
    (h : ∀ x ∈ s.tasks, x.BaseReport.ID ≠ id) :
    deleteTask s id = Except.error "index out of range" ∧
      showTaskByID s id = Except.ok (httpError "Task not found" 404) := by
  have hf : findByID s.tasks id = -1 := (findByID_eq_neg_one_iff s.tasks id).2 h
  constructor
  · unfold deleteTask
    simp [hf, index]
  · unfold showTaskByID
    simp [hf]

/-- C5 on the empty registry. -/
theorem C5_deleteTask_unknown_panics_witness :
    deleteTask State.init "AAAAAAAA" = Except.error "index out of range" ∧
      showTaskByID State.init "AAAAAAAA" = Except.ok (httpError "Task not found" 404) :=
  C5_deleteTask_unknown_panics State.init "AAAAAAAA" (by decide)

/-! ## C3: `executeComand` on a successful run -/

/-- A successful run with non-empty output leaves status `executed` and exit code 0. -/
theorem changeStatuses_success (this : FullReport) (stdout : String) (h : stdout ≠ "") :
    (changeStatuses this stdout none).BaseReport.Status = "executed" ∧
      (changeStatuses this stdout none).ExitCode = 0 := by
  simp [changeStatuses, h]

/-- C3, what the code does on empty output: `changeStatuses` with empty output and no
error sets status `scheduled`, so `executeComand` on the scheduled record of
`echo $null`, the runner reporting success with empty output, stores the record with
status `scheduled` (exit code 0) in registry and history and decrements the counter. -/
theorem C3_executeComand_empty_output :
    (∀ this : FullReport, (changeStatuses this "" none).BaseReport.Status = "scheduled") ∧
    quietReport ∈ quietState.tasks ∧ quietReport.BaseReport.Status = "scheduled" ∧
    executeComand quietState quietReport "" none = Except.ok
      { activeTasks := 0, tasks := [quietReport], history := [quietReport, quietReport],
        tasksFile := some [quietReport], historyFile := some [quietReport, quietReport],
        runs := ["echo $null"] } := by
  refine ⟨fun this => by simp [changeStatuses], by decide, by decide, by decide⟩

/-! ## C6: the in-flight counter -/

/-- C6, what the code does: after a task is submitted, started and then canceled by a
delete request (its timer arm returning afterwards), or canceled by the safety timeout,
all executors are finished, the record is `canceled` and `activeTasks` is still 1, not
the 0 it was before the submission; only the executed path brings it back to 0. -/
theorem C6_counter_not_released_on_cancel :
    summary deletedRun = some (1, [("AAAAAAAA", "canceled")]) ∧
    allDone deletedRun = some true ∧
    summary timedOutRun = some (1, [("AAAAAAAA", "canceled")]) ∧
    allDone timedOutRun = some true ∧
    summary executedRun = some (0, [("AAAAAAAA", "executed")]) ∧
    System.init.st.activeTasks = 0 := by
  refine ⟨by decide, by decide, by decide, by decide, by decide, by decide⟩

/-! ## C8: scheduled records against the admission limit -/

/-- C8, what the code does: six submissions accepted before any executor has run
`activeTasks++` leave six scheduled records in the registry, and so do six rounds of
submit, start and successful run with empty output; the bound 5 is not an invariant of
the reachable states. -/
theorem C8_six_scheduled_reachable :
    (run System.init sixPosts).map (fun sys => scheduledCount sys.st.tasks) = some 6 ∧
    (run System.init sixQuietRounds).map (fun sys => scheduledCount sys.st.tasks) = some 6 ∧
    (run System.init sixQuietRounds).map (fun sys => sys.st.activeTasks) = some 0 ∧
    ¬ (∀ sys, Reachable sys → scheduledCount sys.st.tasks ≤ 5) := by
  have h1 : (run System.init sixPosts).map (fun sys => scheduledCount sys.st.tasks) = some 6 := by
    decide
  refine ⟨h1, by decide, by decide, ?_⟩
  intro h
  cases hr : run System.init sixPosts with
  | none => rw [hr] at h1; simp at h1
  | some sys =>
    rw [hr] at h1
    have h2 := h sys ⟨sixPosts, hr⟩
    simp only [Option.map_some', Option.some.injEq] at h1
    omega

/-! ## Runs and invariants -/

/-- A property kept by every step holds at the end of every run that starts with it. -/
theorem run_invariant (P : System → Prop)
    (hstep : ∀ sys e sys1, P sys → step sys e = some sys1 → P sys1) :
    ∀ (evs : List Event) (sys sys1 : System), P sys → run sys evs = some sys1 → P sys1 := by
  intro evs
  induction evs with
  | nil =>
    intro sys sys1 hP h
    simp only [run, Option.some.injEq] at h
    exact h ▸ hP
  | cons e es ih =>
    intro sys sys1 hP h
    simp only [run] at h
    cases hs : step sys e with
    | none => rw [hs] at h; simp at h
    | some sys2 =>
      rw [hs] at h
      exact ih sys2 sys1 (hstep sys e sys2 hP hs) h

theorem collectTask_activeTasks (s : State) (body : Except String Task) (rnd : Nat → Nat)
    (fuel : Nat) (now : Int) (out : Reply × State × Option FullReport)
    (h : collectTask s body rnd fuel now = some out) : out.2.1.activeTasks = s.activeTasks := by
  unfold collectTask at h
  split_ifs at h with h1
  · simp only [Option.some.injEq] at h
    rw [← h]
  · cases body with
    | error err => simp at h
    | ok task =>
      simp only at h
      cases hg : generateID s.tasks rnd 0 fuel with
      | none => rw [hg] at h; simp at h
      | some p =>
        rw [hg] at h
        simp only at h
        split_ifs at h
        · simp only [Option.some.injEq] at h
          rw [← h]
        · simp only [Option.some.injEq] at h
          rw [← h, saveReportToFile_eq]

theorem deleteFromTasks_activeTasks (s s1 : State) (i : Int)
    (h : deleteFromTasks s i = Except.ok s1) : s1.activeTasks = s.activeTasks := by
  unfold deleteFromTasks at h
  cases hd : slicesDelete s.tasks i with
  | error e => rw [hd] at h; simp at h
  | ok ts =>
    rw [hd] at h
    simp only [Except.ok.injEq] at h
    rw [← h]
    rfl

theorem deleteTask_activeTasks (s : State) (id : String) (out : Reply × State)
    (h : deleteTask s id = Except.ok out) : out.2.activeTasks = s.activeTasks := by
  simp only [deleteTask] at h
  cases hi : index s.tasks (findByID s.tasks id) with
  | error e => rw [hi] at h; simp at h
  | ok found =>
    rw [hi] at h
    simp only at h
    split_ifs at h
    · simp only [Except.ok.injEq] at h
      rw [← h]
    · cases hd : deleteFromTasks s (findByID s.tasks id) with
      | error e => rw [hd] at h; simp at h
      | ok s1 =>
        rw [hd] at h
        simp only [Except.ok.injEq] at h
        rw [← h, saveReportToFile_eq]
        exact deleteFromTasks_activeTasks s s1 _ hd

theorem delayTaskTimeout_activeTasks (s : State) (r : FullReport) (out : Reply × State)
    (h : delayTaskTimeout s r = Except.ok out) : out.2.activeTasks = s.activeTasks := by
  unfold delayTaskTimeout at h
  simp only at h
  cases hd : deleteFromTasks s (findByID s.tasks (statusDeleted r).BaseReport.ID) with
  | error e => rw [hd] at h; simp at h
  | ok s1 =>
    rw [hd] at h
    simp only [Except.ok.injEq] at h
    rw [← h, saveReportToFile_eq]
    exact deleteFromTasks_activeTasks s s1 _ hd

theorem delayTaskTimer_activeTasks (s s1 : State) (r : FullReport) (output : String)
    (err : Option String) (h : delayTaskTimer s r output err = Except.ok s1) :
    s1.activeTasks = s.activeTasks ∨ s1.activeTasks = s.activeTasks - 1 := by
  unfold delayTaskTimer at h
  cases hi : index s.tasks (findByID s.tasks r.BaseReport.ID) with
  | error e => rw [hi] at h; simp at h
  | ok cur =>
    rw [hi] at h
    simp only at h
    split_ifs at h
    · simp only [Except.ok.injEq] at h
      left; rw [← h]
    · right
      unfold executeComand at h
      simp only at h
      split at h
      · simp at h
      · rename_i s2 hd
        simp only [Except.ok.injEq] at h
        rw [← h, saveReportToFile_eq]
        exact deleteFromTasks_activeTasks _ s2 _ hd

/-! ## C7: admission check of `collectTask` -/

/-- C7, what the code does: with `activeTasks` at 5 or more, `collectTask` answers
`Tasks overflow` (400) and returns the state as it was, spawning nothing, whatever the
body, and below 5 it never gives that answer.  But the counter is raised by the spawned
executor, not by `collectTask`: after five accepted submissions whose executors have not
yet run `activeTasks++` there are five scheduled records, the counter is still 0, and the
sixth submission is accepted, leaving six scheduled records. -/
theorem C7_collectTask_admission_check :
    (∀ (s : State) (body : Except String Task) (rnd : Nat → Nat) (fuel : Nat) (now : Int),
      5 ≤ s.activeTasks →
        collectTask s body rnd fuel now = some (httpError "Tasks overflow" 400, s, none)) ∧
    (∀ (s : State) (body : Except String Task) (rnd : Nat → Nat) (fuel : Nat) (now : Int)
      (out : Reply × State × Option FullReport),
      s.activeTasks < 5 → collectTask s body rnd fuel now = some out →
        out.1 ≠ httpError "Tasks overflow" 400) ∧
    run System.init fiveAccepted = some fiveAcceptedSys ∧
    scheduledCount fiveAcceptedSys.st.tasks = 5 ∧
    fiveAcceptedSys.execs.map (fun e => e.phase) = List.replicate 5 Phase.spawned ∧
    fiveAcceptedSys.st.activeTasks = 0 ∧
    (collectTask fiveAcceptedSys.st (Except.ok echoTask) (constRnd 5) 1 0).map
      (fun out => (out.1, out.2.2.isSome, scheduledCount out.2.1.tasks))
        = some (sixthReply, true, 6) ∧
    sixthReply ≠ httpError "Tasks overflow" 400 := by
  refine ⟨?_, ?_, by decide, by decide, by decide, by decide, by decide, by decide⟩
  · intro s body rnd fuel now h
    unfold collectTask
    have h1 : s.activeTasks ≥ limitingTasks := h
    rw [if_pos h1]
  · intro s body rnd fuel now out hlt h
    unfold collectTask at h
    have h1 : ¬ s.activeTasks ≥ limitingTasks := by
      unfold limitingTasks
      omega
    rw [if_neg h1] at h
    have hne2 : ∀ msg, fprintf msg ≠ httpError "Tasks overflow" 400 := by
      intro msg hm
      simp [fprintf, httpError] at hm
    cases body with
    | error err => simp at h
    | ok task =>
      simp only at h
      cases hg : generateID s.tasks rnd 0 fuel with
      | none => rw [hg] at h; simp at h
      | some p =>
        rw [hg] at h
        simp only at h
        split_ifs at h
        · simp only [Option.some.injEq] at h
          rw [← h]
          exact hne2 _
        · simp only [Option.some.injEq] at h
          rw [← h]
          exact hne2 _

/-- C7 at concrete inputs: a state with counter 5 answers the overflow, and the answer to
`rm -rf /` in the initial state is not the overflow. -/
theorem C7_collectTask_admission_check_witness :
    collectTask { State.init with activeTasks := 5 } (Except.ok echoTask) (constRnd 0) 1 0
      = some (httpError "Tasks overflow" 400, { State.init with activeTasks := 5 }, none) ∧
    (fprintf "Command is not valid" ≠ httpError "Tasks overflow" 400) :=
  ⟨C7_collectTask_admission_check.1 _ _ _ _ _ (by decide),
    C7_collectTask_admission_check.2.1 State.init (Except.ok ⟨1, "rm -rf /"⟩) (constRnd 0) 1 0
      (fprintf "Command is not valid", State.init, none) (by decide) (by decide)⟩

/-! ## C10: `generateID` -/

theorem drawRunes_length (rnd : Nat → Nat) (pos n : Nat) : (drawRunes rnd pos n).length = n := by
  induction n generalizing pos with
  | zero => rfl
  | succ n ih => simp [drawRunes, ih]

theorem chars_alphaNum : ∀ c ∈ chars, isAlphaNum c = true := by decide

theorem drawRunes_mem (rnd : Nat → Nat) (pos n : Nat) : ∀ c ∈ drawRunes rnd pos n, c ∈ chars := by
  induction n generalizing pos with
  | zero => simp [drawRunes]
  | succ n ih =>
    intro c hc
    simp only [drawRunes, List.mem_cons] at hc
    rcases hc with rfl | hc
    · have hlt : intn (rnd pos) chars.length < chars.length := by
        unfold intn
        exact Nat.mod_lt _ (by decide)
      rw [List.getD_eq_getElem _ _ hlt]
      exact List.getElem_mem _
    · exact ih (pos + 1) c hc

/-- The identifier `generateID` returns is the first attempt that no record carries. -/
theorem generateID_eq_some_iff (tasks : List FullReport) (rnd : Nat → Nat) (pos fuel : Nat)
    (id : String) (pos1 : Nat) :
    generateID tasks rnd pos fuel = some (id, pos1) ↔
      ∃ k, k < fuel ∧ id = attempt rnd pos k ∧ pos1 = pos + 8 * (k + 1) ∧
        findByID tasks (attempt rnd pos k) = -1 ∧
        ∀ j, j < k → findByID tasks (attempt rnd pos j) ≠ -1 := by
  induction fuel generalizing pos with
  | zero => simp [generateID]
  | succ fuel ih =>
    have h0 : attempt rnd pos 0 = String.mk (drawRunes rnd pos 8) := by simp [attempt]
    have hshift : ∀ k, attempt rnd (pos + 8) k = attempt rnd pos (k + 1) := by
      intro k
      simp only [attempt]
      congr 2
      ring
    by_cases hfree : findByID tasks (String.mk (drawRunes rnd pos 8)) = -1
    · simp only [generateID, hfree, if_true, Option.some.injEq, Prod.mk.injEq]
      constructor
      · rintro ⟨h1, h2⟩
        refine ⟨0, by omega, ?_, ?_, ?_, ?_⟩
        · rw [h0, ← h1]
        · omega
        · rw [h0]; exact hfree
        · intro j hj; omega
      · rintro ⟨k, -, h1, h2, -, h4⟩
        have hk : k = 0 := by
          by_contra hne
          exact h4 0 (by omega) (by rw [h0]; exact hfree)
        subst hk
        exact ⟨by rw [h1, h0], by omega⟩
    · simp only [generateID, hfree, if_false]
      rw [ih (pos + 8)]
      constructor
      · rintro ⟨k, hk, h1, h2, h3, h4⟩
        refine ⟨k + 1, by omega, ?_, by omega, ?_, ?_⟩
        · rw [h1, hshift]
        · rw [← hshift]; exact h3
        · intro j hj
          cases j with
          | zero => rw [h0]; exact hfree
          | succ j => rw [← hshift]; exact h4 j (by omega)
      · rintro ⟨k, hk, h1, h2, h3, h4⟩
        cases k with
        | zero => rw [h0] at h3; exact absurd h3 hfree
        | succ k =>
          refine ⟨k, by omega, ?_, by omega, ?_, ?_⟩
          · rw [h1, hshift]
          · rw [hshift]; exact h3
          · intro j hj
            rw [hshift]
            exact h4 (j + 1) (by omega)

/-- C10: whenever `generateID` returns, the identifier has exactly 8 characters, each one
of `A-Z`, `a-z`, `0-9`, and no record of the registry carries it (`findByID` gives -1);
it is the first drawn string that is free, every earlier one having collided.  It does
return as soon as some attempt within the fuel is free. -/
theorem C10_generateID_fresh (tasks : List FullReport) (rnd : Nat → Nat) (pos fuel : Nat) :
    (∀ (id : String) (pos1 : Nat), generateID tasks rnd pos fuel = some (id, pos1) →
      id.length = 8 ∧ (∀ c ∈ id.toList, isAlphaNum c = true) ∧
      findByID tasks id = -1 ∧ (∀ x ∈ tasks, x.BaseReport.ID ≠ id) ∧
      ∃ k, k < fuel ∧ id = attempt rnd pos k ∧
        ∀ j, j < k → findByID tasks (attempt rnd pos j) ≠ -1) ∧
    (∀ k, k < fuel → findByID tasks (attempt rnd pos k) = -1 →
      ∃ id pos1, generateID tasks rnd pos fuel = some (id, pos1)) := by
  constructor
  · intro id pos1 h
    obtain ⟨k, hk, h1, -, h3, h4⟩ := (generateID_eq_some_iff tasks rnd pos fuel id pos1).1 h
    have hfree : findByID tasks id = -1 := by rw [h1]; exact h3
    refine ⟨?_, ?_, hfree, (findByID_eq_neg_one_iff tasks id).1 hfree, k, hk, h1, h4⟩
    · rw [h1]
      simp [attempt, String.length, drawRunes_length]
    · intro c hc
      rw [h1] at hc
      exact chars_alphaNum c (drawRunes_mem rnd _ 8 c hc)
  · intro k hk hfree
    have hex : ∃ m, m ≤ k ∧ findByID tasks (attempt rnd pos m) = -1 ∧
        ∀ j, j < m → findByID tasks (attempt rnd pos j) ≠ -1 := by
      classical
      have hP : ∃ m, findByID tasks (attempt rnd pos m) = -1 := ⟨k, hfree⟩
      refine ⟨Nat.find hP, Nat.find_min' hP hfree, Nat.find_spec hP, ?_⟩
      intro j hj
      exact Nat.find_min hP hj
    obtain ⟨m, hm, hm1, hm2⟩ := hex
    exact ⟨attempt rnd pos m, pos + 8 * (m + 1),
      (generateID_eq_some_iff tasks rnd pos fuel _ _).2 ⟨m, by omega, rfl, rfl, hm1, hm2⟩⟩

/-- C10 at a registry holding `AAAAAAAA`, with a stream whose first draw collides: the
second draw `BBBBBBBB` is returned. -/
theorem C10_generateID_fresh_witness :
    generateID [quietReport] collidingRnd 0 2 = some ("BBBBBBBB", 16) ∧
    "BBBBBBBB".length = 8 ∧ findByID [quietReport] "BBBBBBBB" = -1 := by
  have h : generateID [quietReport] collidingRnd 0 2 = some ("BBBBBBBB", 16) := by decide
  have h2 := (C10_generateID_fresh [quietReport] collidingRnd 0 2).1 "BBBBBBBB" 16 h
  exact ⟨h, h2.1, h2.2.2.1⟩

/-! ## One record per identifier in every reachable state -/

theorem changeStatuses_ID (this : FullReport) (stdout : String) (stderr : Option String) :
    (changeStatuses this stdout stderr).BaseReport.ID = this.BaseReport.ID := by
  cases stderr <;> by_cases h : stdout = "" <;> simp [changeStatuses, h]

theorem makeFullReport_ID (now : Int) (ID : String) (task : Task) (stdout : String)
    (stderr : Option String) : (makeFullReport now ID task stdout stderr).BaseReport.ID = ID := by
  simp [makeFullReport, changeStatuses_ID]

theorem uniqueIDs_append_singleton (T : List FullReport) (r : FullReport) :
    UniqueIDs (T ++ [r]) ↔ UniqueIDs T ∧ ∀ x ∈ T, x.BaseReport.ID ≠ r.BaseReport.ID := by
  unfold UniqueIDs
  rw [List.map_append, List.nodup_append]
  simp only [List.map_cons, List.map_nil, List.nodup_cons, List.not_mem_nil, not_false_eq_true,
    List.nodup_nil, and_self, true_and, List.disjoint_singleton, List.mem_map, not_exists,
    not_and]

theorem uniqueIDs_sublist (F T : List FullReport) (h : F.Sublist T) (hu : UniqueIDs T) :
    UniqueIDs F := by
  unfold UniqueIDs at hu ⊢
  exact List.Nodup.sublist (List.Sublist.map _ h) hu

/-- The answer of `findByID` is `-1`, or the position of the first record carrying the
identifier. -/
theorem findByID_spec (tasks : List FullReport) (ID : String) :
    findByID tasks ID = -1 ∨
      ∃ pre x post, tasks = pre ++ x :: post ∧ x.BaseReport.ID = ID ∧
        (∀ y ∈ pre, y.BaseReport.ID ≠ ID) ∧ findByID tasks ID = pre.length := by
  induction tasks with
  | nil => left; rfl
  | cons a l ih =>
    by_cases ha : a.BaseReport.ID = ID
    · right
      refine ⟨[], a, l, rfl, ha, by simp, ?_⟩
      simp [findByID, findByIDFrom, ha]
    · rcases ih with h | ⟨pre, x, post, h1, h2, h3, -⟩
      · left
        rw [findByID_eq_neg_one_iff] at h ⊢
        intro y hy
        rcases List.mem_cons.1 hy with rfl | hy
        · exact ha
        · exact h y hy
      · right
        have hpre : ∀ y ∈ a :: pre, y.BaseReport.ID ≠ ID := by
          intro y hy
          rcases List.mem_cons.1 hy with rfl | hy
          · exact ha
          · exact h3 y hy
        refine ⟨a :: pre, x, post, by rw [h1]; rfl, h2, hpre, ?_⟩
        subst h2
        rw [h1]
        exact findByID_first (a :: pre) post x hpre

theorem uinv_after_delete (s s0 s1 : State) (r : FullReport) (h0 : s0.tasks = s.tasks)
    (hu : UniqueIDs s.tasks)
    (h : deleteFromTasks s0 (findByID s0.tasks r.BaseReport.ID) = Except.ok s1) :
    UInv (saveReportToFile s1 r) := by
  unfold deleteFromTasks at h
  rw [h0] at h
  rcases findByID_spec s.tasks r.BaseReport.ID with hf | ⟨pre, x, post, h1, h2, h3, h4⟩
  · rw [hf] at h
    simp [slicesDelete] at h
  · rw [h4, h1, slicesDelete_first] at h
    simp only [Except.ok.injEq] at h
    rw [saveReportToFile_eq, ← h]
    have hT : UniqueIDs (pre ++ post ++ [r]) := by
      rw [uniqueIDs_append_singleton]
      rw [h1] at hu
      constructor
      · exact uniqueIDs_sublist _ _ (List.Sublist.append_left (List.sublist_cons_self x post) pre) hu
      · intro y hy
        unfold UniqueIDs at hu
        rw [List.map_append, List.nodup_append] at hu
        simp only [List.mem_append] at hy
        rcases hy with hy | hy
        · exact h3 y hy
        · have h5 := hu.2.1
          simp only [List.map_cons, List.nodup_cons, List.mem_map, not_exists, not_and] at h5
          intro hxy
          exact h5.1 y hy (by rw [hxy, h2])
    refine ⟨by simpa [saveTasks] using hT, ?_⟩
    intro F hF
    simp only [saveTasks, Option.some.injEq] at hF
    rw [← hF]
    simp [saveTasks]

theorem uinv_saveReportToFile (s : State) (r : FullReport) (hI : UInv s)
    (hfresh : ∀ x ∈ s.tasks, x.BaseReport.ID ≠ r.BaseReport.ID) :
    UInv (saveReportToFile s r) := by
  rw [saveReportToFile_eq]
  have hsub : (s.tasksFile.getD s.tasks).Sublist s.tasks := by
    cases ht : s.tasksFile with
    | none => exact List.Sublist.refl _
    | some F => exact hI.2 F ht
  refine ⟨?_, ?_⟩
  · show UniqueIDs (s.tasksFile.getD s.tasks ++ [r])
    rw [uniqueIDs_append_singleton]
    exact ⟨uniqueIDs_sublist _ _ hsub hI.1, fun x hx => hfresh x (hsub.subset hx)⟩
  · intro F hF
    simp only [Option.some.injEq] at hF
    rw [← hF]

theorem generateID_fresh (tasks : List FullReport) (rnd : Nat → Nat) (pos fuel : Nat)
    (p : String × Nat) (h : generateID tasks rnd pos fuel = some p) :
    ∀ x ∈ tasks, x.BaseReport.ID ≠ p.1 := by
  obtain ⟨k, -, h1, -, h3, -⟩ := (generateID_eq_some_iff tasks rnd pos fuel p.1 p.2).1 h
  rw [h1]
  exact (findByID_eq_neg_one_iff tasks _).1 h3

theorem collectTask_uinv (s : State) (body : Except String Task) (rnd : Nat → Nat)
    (fuel : Nat) (now : Int) (out : Reply × State × Option FullReport) (hI : UInv s)
    (h : collectTask s body rnd fuel now = some out) : UInv out.2.1 := by
  unfold collectTask at h
  split_ifs at h with h1
  · simp only [Option.some.injEq] at h
    rw [← h]; exact hI
  · cases body with
    | error err => simp at h
    | ok task =>
      simp only at h
      cases hg : generateID s.tasks rnd 0 fuel with
      | none => rw [hg] at h; simp at h
      | some p =>
        rw [hg] at h
        simp only at h
        have hfr := generateID_fresh _ _ _ _ _ hg
        split_ifs at h
        · simp only [Option.some.injEq] at h
          rw [← h]; exact hI
        · simp only [Option.some.injEq] at h
          rw [← h]
          exact uinv_saveReportToFile s _ hI (by rw [makeFullReport_ID]; exact hfr)

theorem deleteTask_uinv (s : State) (id : String) (out : Reply × State) (hI : UInv s)
    (h : deleteTask s id = Except.ok out) : UInv out.2 := by
  simp only [deleteTask] at h
  cases hi : index s.tasks (findByID s.tasks id) with
  | error e => rw [hi] at h; simp at h
  | ok found =>
    rw [hi] at h
    simp only at h
    split_ifs at h
    · simp only [Except.ok.injEq] at h
      rw [← h]; exact hI
    · cases hd : deleteFromTasks s (findByID s.tasks id) with
      | error e => rw [hd] at h; simp at h
      | ok s1 =>
        rw [hd] at h
        simp only [Except.ok.injEq] at h
        rw [← h]
        have hid : (statusDeleted found).BaseReport.ID = id := by
          rcases findByID_spec s.tasks id with hf | ⟨pre, x, post, h1, h2, h3, h4⟩
          · rw [hf] at hi
            simp [index] at hi
          · rw [h4, h1, index_first] at hi
            simp only [Except.ok.injEq] at hi
            rw [← hi]
            exact h2
        refine uinv_after_delete s s s1 _ rfl hI.1 ?_
        rw [hid]
        exact hd

theorem delayTaskTimeout_uinv (s : State) (r : FullReport) (out : Reply × State) (hI : UInv s)
    (h : delayTaskTimeout s r = Except.ok out) : UInv out.2 := by
  unfold delayTaskTimeout at h
  simp only at h
  cases hd : deleteFromTasks s (findByID s.tasks (statusDeleted r).BaseReport.ID) with
  | error e => rw [hd] at h; simp at h
  | ok s1 =>
    rw [hd] at h
    simp only [Except.ok.injEq] at h
    rw [← h]
    exact uinv_after_delete s s s1 _ rfl hI.1 hd

theorem delayTaskTimer_uinv (s s1 : State) (r : FullReport) (output : String)
    (err : Option String) (hI : UInv s) (h : delayTaskTimer s r output err = Except.ok s1) :
    UInv s1 := by
  unfold delayTaskTimer at h
  cases hi : index s.tasks (findByID s.tasks r.BaseReport.ID) with
  | error e => rw [hi] at h; simp at h
  | ok cur =>
    rw [hi] at h
    simp only at h
    split_ifs at h
    · simp only [Except.ok.injEq] at h
      rw [← h]; exact hI
    · unfold executeComand at h
      simp only at h
      split at h
      · simp at h
      · rename_i s2 hd
        simp only [Except.ok.injEq] at h
        rw [← h]
        refine uinv_after_delete s _ s2 _ ?_ hI.1 hd
        rfl

theorem step_uinv (sys sys1 : System) (e : Event) (hI : UInv sys.st)
    (h : step sys e = some sys1) : UInv sys1.st := by
  cases e with
  | post body rnd fuel now =>
    simp only [step] at h
    split_ifs at h with h1 h2
    · simp only [Option.some.injEq] at h
      rw [← h]; exact hI
    · cases hc : collectTask sys.st body rnd fuel now with
      | none => rw [hc] at h; simp at h
      | some out =>
        obtain ⟨rep, st1, sp⟩ := out
        have ha := collectTask_uinv _ _ _ _ _ _ hI hc
        rw [hc] at h
        cases sp with
        | none =>
          simp only [Option.some.injEq] at h
          rw [← h]; exact ha
        | some report =>
          simp only [Option.some.injEq] at h
          rw [← h]; exact ha
  | start i =>
    simp only [step] at h
    cases hg : sys.execs.get? i with
    | none => rw [hg] at h; simp at h
    | some ex =>
      rw [hg] at h
      simp only at h
      split_ifs at h with hp
      simp only [Option.some.injEq] at h
      rw [← h]
      exact hI
  | fire i output err =>
    simp only [step] at h
    split_ifs at h with hheld
    cases hg : sys.execs.get? i with
    | none => rw [hg] at h; simp at h
    | some ex =>
      rw [hg] at h
      simp only at h
      split_ifs at h with hp
      cases hd : delayTaskTimer sys.st ex.report output err with
      | error e2 => rw [hd] at h; simp at h
      | ok st1 =>
        rw [hd] at h
        simp only [Option.some.injEq] at h
        rw [← h]
        exact delayTaskTimer_uinv _ _ _ _ _ hI hd
  | timeout i =>
    simp only [step] at h
    split_ifs at h with hheld
    cases hg : sys.execs.get? i with
    | none => rw [hg] at h; simp at h
    | some ex =>
      rw [hg] at h
      simp only at h
      split_ifs at h with hp
      cases hd : delayTaskTimeout sys.st ex.report with
      | error e2 => rw [hd] at h; simp at h
      | ok out =>
        rw [hd] at h
        simp only [Option.some.injEq] at h
        rw [← h]
        exact delayTaskTimeout_uinv _ _ _ hI hd
  | delete id =>
    simp only [step] at h
    split_ifs at h with hheld
    cases hd : deleteTask sys.st id with
    | error e2 =>
      rw [hd] at h
      simp only [Option.some.injEq] at h
      rw [← h]
      exact hI
    | ok out =>
      rw [hd] at h
      simp only [Option.some.injEq] at h
      rw [← h]
      exact deleteTask_uinv _ _ _ hI hd

/-- Every state the sequential program reaches from start-up holds one record per
identifier, which is the well-formedness that the theorems on `deleteTask` assume of the
registry. -/
theorem reachable_uniqueIDs (sys : System) (h : Reachable sys) : UniqueIDs sys.st.tasks := by
  obtain ⟨evs, hrun⟩ := h
  have hinit : UInv System.init.st := by
    refine ⟨by decide, ?_⟩
    intro F hF
    simp [System.init, State.init] at hF
  exact (run_invariant (fun sys => UInv sys.st)
    (fun sys e sys1 hP hs => step_uinv sys sys1 e hP hs) evs System.init sys hinit hrun).1

/-! ## C9: the history log -/

theorem deleteFromTasks_history (s s1 : State) (i : Int)
    (h : deleteFromTasks s i = Except.ok s1) :
    s1.history = s.history ∧ s1.historyFile = s.historyFile := by
  unfold deleteFromTasks at h
  cases hd : slicesDelete s.tasks i with
  | error e => rw [hd] at h; simp at h
  | ok ts =>
    rw [hd] at h
    simp only [Except.ok.injEq] at h
    rw [← h]
    exact ⟨rfl, rfl⟩

theorem appended_saveReportToFile (s : State) (r : FullReport) :
    Appended s (saveReportToFile s r) r := by
  rw [saveReportToFile_eq]
  exact ⟨rfl, rfl, by simp⟩

theorem appended_after_delete (s s0 s1 : State) (i : Int) (r : FullReport)
    (h0 : s0.history = s.history ∧ s0.historyFile = s.historyFile)
    (h : deleteFromTasks s0 i = Except.ok s1) : Appended s (saveReportToFile s1 r) r := by
  obtain ⟨h1, h2⟩ := deleteFromTasks_history s0 s1 i h
  have ha := appended_saveReportToFile s1 r
  unfold Appended at ha ⊢
  rw [h2, h1, h0.1, h0.2] at ha
  exact ha

/-- The record that `findByID` points at is in the registry and carries the identifier. -/
theorem index_findByID (tasks : List FullReport) (id : String) (found : FullReport)
    (h : index tasks (findByID tasks id) = Except.ok found) :
    found ∈ tasks ∧ found.BaseReport.ID = id := by
  rcases findByID_spec tasks id with hf | ⟨pre, x, post, h1, h2, -, h4⟩
  · rw [hf] at h
    simp [index] at h
  · rw [h4, h1, index_first] at h
    simp only [Except.ok.injEq] at h
    rw [← h, h1]
    exact ⟨by simp, h2⟩

/-- C9 fails on the code: an accepted submission appends its scheduled record to the
history, so the history holds a non-terminal entry; after the task has run its
identifier has two entries, and a repeated delete appends a further canceled entry. -/
theorem C9_counterexample_history :
    historySummary [Event.post (Except.ok echoTask) (constRnd 0) 1 0]
      = some [("AAAAAAAA", "scheduled")] ∧
    historySummary executedRun = some [("AAAAAAAA", "scheduled"), ("AAAAAAAA", "executed")] ∧
    historySummary deletedTwiceRun
      = some [("AAAAAAAA", "scheduled"), ("AAAAAAAA", "canceled"), ("AAAAAAAA", "canceled")] := by
  refine ⟨by decide, by decide, by decide⟩

/-- C9, as the code has it: every call that stores a record appends exactly that record
to the history (reloaded from `history.json` when readable) as one further last entry,
rewrites `history.json` with the result and leaves the record last in the registry.  An
accepted submission appends its scheduled record, `executeComand` the record resulting
from the run, the safety timeout and a delete answered `400` the canceled copy.  A
submission that spawns nothing, a delete answered `410` and a timer arm that finds the
record canceled return the state as it was. -/
theorem C9_history_appends_stored (s : State) :
    (∀ (body : Except String Task) (rnd : Nat → Nat) (fuel : Nat) (now : Int) (reply : Reply)
      (st1 : State) (report : FullReport),
      collectTask s body rnd fuel now = some (reply, st1, some report) →
        report.BaseReport.Status = "scheduled" ∧ Appended s st1 report) ∧
    (∀ (body : Except String Task) (rnd : Nat → Nat) (fuel : Nat) (now : Int) (reply : Reply)
      (st1 : State),
      collectTask s body rnd fuel now = some (reply, st1, none) → st1 = s) ∧
    (∀ (report : FullReport) (output : String) (err : Option String) (st1 : State),
      executeComand s report output err = Except.ok st1 →
        Appended s st1 (executedRecord report output err)) ∧
    (∀ (report : FullReport) (output : String) (err : Option String) (st1 : State),
      delayTaskTimer s report output err = Except.ok st1 →
        ∃ cur, cur ∈ s.tasks ∧ cur.BaseReport.ID = report.BaseReport.ID ∧
          ((cur.BaseReport.Status = "canceled" ∧ st1 = s) ∨
            (cur.BaseReport.Status ≠ "canceled" ∧
              Appended s st1 (executedRecord report output err)))) ∧
    (∀ (report : FullReport) (reply : Reply) (st1 : State),
      delayTaskTimeout s report = Except.ok (reply, st1) →
        Appended s st1 (statusDeleted report)) ∧
    (∀ (id : String) (reply : Reply) (st1 : State),
      deleteTask s id = Except.ok (reply, st1) →
        ∃ found, found ∈ s.tasks ∧ found.BaseReport.ID = id ∧
          ((found.BaseReport.Status = "executed" ∧ reply = fprintf "410" ∧ st1 = s) ∨
            (found.BaseReport.Status ≠ "executed" ∧ reply = fprintf "400" ∧
              Appended s st1 (statusDeleted found)))) := by
  have hexec : ∀ (report : FullReport) (output : String) (err : Option String) (st1 : State),
      executeComand s report output err = Except.ok st1 →
        Appended s st1 (executedRecord report output err) := by
    intro report output err st1 h
    unfold executeComand at h
    simp only at h
    split at h
    · simp at h
    · rename_i s2 hd
      simp only [Except.ok.injEq] at h
      rw [← h]
      refine appended_after_delete s _ s2 _ _ ?_ hd
      exact ⟨rfl, rfl⟩
  refine ⟨?_, ?_, hexec, ?_, ?_, ?_⟩
  · intro body rnd fuel now reply st1 report h
    unfold collectTask at h
    split_ifs at h with h1
    · simp at h
    · cases body with
      | error err => simp at h
      | ok task =>
        simp only at h
        cases hg : generateID s.tasks rnd 0 fuel with
        | none => rw [hg] at h; simp at h
        | some p =>
          rw [hg] at h
          simp only at h
          split_ifs at h
          · simp at h
          · simp only [Option.some.injEq, Prod.mk.injEq] at h
            obtain ⟨-, h2, h3⟩ := h
            rw [← h2, ← h3]
            exact ⟨by simp [makeFullReport, changeStatuses], appended_saveReportToFile s _⟩
  · intro body rnd fuel now reply st1 h
    unfold collectTask at h
    split_ifs at h with h1
    · simp only [Option.some.injEq, Prod.mk.injEq] at h
      exact h.2.1.symm
    · cases body with
      | error err => simp at h
      | ok task =>
        simp only at h
        cases hg : generateID s.tasks rnd 0 fuel with
        | none => rw [hg] at h; simp at h
        | some p =>
          rw [hg] at h
          simp only at h
          split_ifs at h
          · simp only [Option.some.injEq, Prod.mk.injEq] at h
            exact h.2.1.symm
          · simp at h
  · intro report output err st1 h
    unfold delayTaskTimer at h
    cases hi : index s.tasks (findByID s.tasks report.BaseReport.ID) with
    | error e => rw [hi] at h; simp at h
    | ok cur =>
      rw [hi] at h
      simp only at h
      obtain ⟨hm, hid⟩ := index_findByID _ _ _ hi
      refine ⟨cur, hm, hid, ?_⟩
      split_ifs at h with hc
      · simp only [Except.ok.injEq] at h
        exact Or.inl ⟨hc, h.symm⟩
      · exact Or.inr ⟨hc, hexec _ _ _ _ h⟩
  · intro report reply st1 h
    unfold delayTaskTimeout at h
    simp only at h
    cases hd : deleteFromTasks s (findByID s.tasks (statusDeleted report).BaseReport.ID) with
    | error e => rw [hd] at h; simp at h
    | ok s1 =>
      rw [hd] at h
      simp only [Except.ok.injEq, Prod.mk.injEq] at h
      rw [← h.2]
      exact appended_after_delete s s s1 _ _ ⟨rfl, rfl⟩ hd
  · intro id reply st1 h
    simp only [deleteTask] at h
    cases hi : index s.tasks (findByID s.tasks id) with
    | error e => rw [hi] at h; simp at h
    | ok found =>
      rw [hi] at h
      simp only at h
      obtain ⟨hm, hid⟩ := index_findByID _ _ _ hi
      refine ⟨found, hm, hid, ?_⟩
      split_ifs at h with hc
      · simp only [Except.ok.injEq, Prod.mk.injEq] at h
        exact Or.inl ⟨hc, h.1.symm, h.2.symm⟩
      · cases hd : deleteFromTasks s (findByID s.tasks id) with
        | error e => rw [hd] at h; simp at h
        | ok s1 =>
          rw [hd] at h
          simp only [Except.ok.injEq, Prod.mk.injEq] at h
          refine Or.inr ⟨hc, h.1.symm, ?_⟩
          rw [← h.2]
          exact appended_after_delete s s s1 _ _ ⟨rfl, rfl⟩ hd

/-- C9 amended, at the safety timeout of `quietTask` in `quietState`: the canceled copy
is the entry appended to the history. -/
theorem C9_history_appends_stored_witness :
    delayTaskTimeout quietState quietReport
      = Except.ok (fprintf "Task: 'AAAAAAAA' canceled due to timeout", quietTimedOut) ∧
    Appended quietState quietTimedOut (statusDeleted quietReport) :=
  ⟨by decide,
    (C9_history_appends_stored quietState).2.2.2.2.1 quietReport
      (fprintf "Task: 'AAAAAAAA' canceled due to timeout") quietTimedOut (by decide)⟩

end TaskServer
